import Mathlib

/-!
Verification of the Arch-Package-Dictionary aggregator.

The repository holds two Rust binaries with the same output pipeline:
`src/main.rs` (sequential, called the `Pd` variant below) and
`yay/src/main.rs` (concurrent via spawned tasks, called the `Yay` variant).
This file embeds the pure parts of both variants: the stdout parsers of the
three source adapters, the aggregation of the three adapter outcomes into a
result triple, and the renderer that builds the text buffer handed to the
pager.  Rust standard-library string operations used by the code are
modelled first; every model works on `String.data` so that all definitions
evaluate by kernel reduction.
-/

/-- Models Rust `char::is_whitespace` (the Unicode `White_Space` property), written over code points. -/
def rustIsWhitespace (c : Char) : Bool :=
  decide ((0x09 ≤ c.toNat ∧ c.toNat ≤ 0x0D) ∨ c.toNat = 0x20 ∨
    c.toNat = 0x85 ∨ c.toNat = 0xA0 ∨ c.toNat = 0x1680 ∨
    (0x2000 ≤ c.toNat ∧ c.toNat ≤ 0x200A) ∨
    c.toNat = 0x2028 ∨ c.toNat = 0x2029 ∨ c.toNat = 0x202F ∨
    c.toNat = 0x205F ∨ c.toNat = 0x3000)

/-- Models Rust `str::trim`: drop leading and trailing whitespace. -/
def rustTrim (s : String) : String :=
  String.mk (((s.data.dropWhile rustIsWhitespace).reverse.dropWhile
      rustIsWhitespace).reverse)

/-- Split a character list at every newline, keeping empty pieces
(`k` newlines give `k + 1` pieces). -/
def splitOnNL : List Char → List (List Char)
  | [] => [[]]
  | c :: t =>
    if c = '\n' then [] :: splitOnNL t
    else
      match splitOnNL t with
      | [] => [[c]]
      | h :: r => (c :: h) :: r

/-- Drop one trailing carriage return, as Rust `str::lines` does on a piece
that was terminated by a newline. -/
def stripCRList (l : List Char) : List Char :=
  if l.getLast? = some '\r' then l.dropLast else l

/-- Models Rust `str::lines`: pieces split at `\n`, a `\r` directly before a
`\n` removed, and the final piece dropped when it is empty (that is, when the
string ends with a newline or is empty). -/
def rustLines (s : String) : List String :=
  match (splitOnNL s.data).reverse with
  | [] => []
  | last :: revInit =>
    (revInit.reverse.map (fun p => String.mk (stripCRList p))) ++
      (if last = [] then [] else [String.mk last])

/-- Models Rust `str::splitn(2, c)`: the text before the first `c` and the
text after it, or the whole string when `c` does not occur. -/
def splitn2 (s : String) (c : Char) : List String :=
  if c ∈ s.data then
    [String.mk (s.data.takeWhile (fun a => a != c)),
     String.mk ((s.data.dropWhile (fun a => a != c)).drop 1)]
  else [s]

/-- Models Rust `str::splitn(3, c)`: at most three fields, the last field
keeping any further separators. -/
def splitn3 (s : String) (c : Char) : List String :=
  match splitn2 s c with
  | [a, r] =>
    match splitn2 r c with
    | [b, rest] => [a, b, rest]
    | _ => [a, r]
  | l => l

/-- Models Rust `slice::chunks(2)`: consecutive pairs, with a final
singleton chunk when the length is odd. -/
def chunks2 : List α → List (List α)
  | [] => []
  | [a] => [[a]]
  | a :: b :: t => [a, b] :: chunks2 t

/-- Models Rust `str::to_lowercase` restricted to the ASCII case mapping
(`Char.toLower`); characters outside ASCII are kept unchanged. -/
def toLowercaseStr (s : String) : String :=
  String.mk (s.data.map Char.toLower)

/-- Tests whether the second list is an initial segment of the first
argument position: `leadsWith sub l` holds when `l` starts with `sub`. -/
def leadsWith : List Char → List Char → Bool
  | [], _ => true
  | _ :: _, [] => false
  | a :: as, b :: bs => a == b && leadsWith as bs

/-- Tests whether `sub` occurs contiguously inside `hay`. -/
def occursIn (sub : List Char) : List Char → Bool
  | [] => leadsWith sub []
  | c :: t => leadsWith sub (c :: t) || occursIn sub t

/-- Models Rust `str::contains(&str)`: `containsStr hay sub` holds when
`sub` occurs as a contiguous substring of `hay`. -/
def containsStr (hay sub : String) : Bool :=
  occursIn sub.data hay.data

/-- Models `char` replacement by a one-character string, as in
`String::replace('~', " ")` applied to a single character. -/
def tildeToSpace (c : Char) : Char :=
  if c = '~' then ' ' else c

/-- Models `output.replace('~', " ")` from `print_results_with_pager`. -/
def replaceTilde (s : String) : String :=
  String.mk (s.data.map tildeToSpace)

/-- The characters of `h` after the first `/` (spec vocabulary used to state
the header-splitting claims). -/
def remainderAfterSlash (h : String) : List Char :=
  (h.data.dropWhile (fun a => a != '/')).drop 1

/-- An emitted record: the `(name, description)` pair of the spec. -/
abbrev PackageRecord := String × String

/-- The triple of per-source record lists, in the fixed order
pacman (system), aur (user), flatpak (sandboxed). -/
abbrev ResultTriple := List PackageRecord × List PackageRecord × List PackageRecord

namespace Pd

/-- The description rule common to all three adapters of `src/main.rs`
(lines 55-57 and 82-86): whitespace-only text becomes `"No description."`,
anything else is trimmed and used verbatim. -/
def descOf (d : String) : String :=
  if rustTrim d = "" then "No description." else rustTrim d

/-- The body of the `filter_map` closure of `execute_search_command`
(`src/main.rs` lines 77-96) applied to a two-line chunk: split the header
on the first `/`, split the remainder on the first space, keep the left
side as the name, and apply the description rule to the second line. -/
def parse_pair (header descLine : String) : Option PackageRecord :=
  match splitn2 header '/' with
  | [_, rest] =>
    match splitn2 rest ' ' with
    | [name, _] => some (name, descOf descLine)
    | _ => none
  | _ => none

/-- The `filter_map` closure of `execute_search_command` on a chunk:
only chunks of length two produce a record (`src/main.rs` lines 76-96). -/
def parse_chunk : List String → Option PackageRecord
  | [h, d] => parse_pair h d
  | _ => none

/-- The pure parsing stage of `execute_search_command`
(`src/main.rs` lines 72-98): all stdout lines, taken in pairs. -/
def execute_search_parse (stdout : String) : List PackageRecord :=
  (chunks2 (rustLines stdout)).filterMap parse_chunk

/-- The per-line closure of `search_flatpak` (`src/main.rs` lines 52-62):
split on tabs into at most three fields, require at least two fields and a
case-insensitive substring match of the term in the first field; the third
field (when present) feeds the description rule, otherwise the description
is `"No description."`. -/
def flatpak_line (term line : String) : Option PackageRecord :=
  match splitn3 line '\t' with
  | [a, _] =>
    if containsStr (toLowercaseStr a) (toLowercaseStr term) then
      some (a, "No description.")
    else none
  | [a, _, c] =>
    if containsStr (toLowercaseStr a) (toLowercaseStr term) then
      some (a, descOf c)
    else none
  | _ => none

/-- The pure parsing stage of `search_flatpak` (`src/main.rs` lines 48-63):
drop the header line, keep the non-empty lines, and apply the per-line
closure. -/
def search_flatpak_parse (term stdout : String) : List PackageRecord :=
  (((rustLines stdout).drop 1).filter (fun l => !(l == ""))).filterMap
    (flatpak_line term)

/-- Models `search_packages` of `src/main.rs` (lines 26-32): the three
adapters run sequentially; each argument is the outcome of the external
command (`Except.ok stdout`, or `Except.error ()` when `Command::output`
fails).  A failed command makes the adapter panic
(`src/main.rs` lines 46 and 70), which aborts the program before any triple
is produced; the abort is modelled as `none`. -/
def search_packages (term : String)
    (pacmanOut aurOut flatpakOut : Except Unit String) : Option ResultTriple :=
  match pacmanOut, aurOut, flatpakOut with
  | Except.ok s1, Except.ok s2, Except.ok s3 =>
    some (execute_search_parse s1, execute_search_parse s2,
          search_flatpak_parse term s3)
  | _, _, _ => none

/-- ANSI bold escape, `src/main.rs` line 6. -/
def BOLD : String := "\x1B[1m"

/-- ANSI blue escape, `src/main.rs` line 7. -/
def BLUE : String := "\x1B[34m"

/-- ANSI red escape, `src/main.rs` line 8. -/
def RED : String := "\x1B[31m"

/-- ANSI green escape, `src/main.rs` line 9. -/
def GREEN : String := "\x1B[32m"

/-- ANSI reset escape, `src/main.rs` line 10. -/
def RESET : String := "\x1B[0m"

/-- Models `format_package_count` (`src/main.rs` lines 106-112). -/
def format_package_count (count : Nat) : String :=
  if count = 1 then "1 package" else toString count ++ " packages"

/-- The summary line pushed first by `print_results_with_pager`
(`src/main.rs` lines 115-119). -/
def summary_line (p a f : Nat) : String :=
  BOLD ++ "Pacman:" ++ RESET ++ " " ++ format_package_count p ++ " | " ++
  BOLD ++ "AUR:" ++ RESET ++ " " ++ format_package_count a ++ " | " ++
  BOLD ++ "Flatpak:" ++ RESET ++ " " ++ format_package_count f ++ "\n\n"

/-- Models `"=".repeat(n)` from `src/main.rs` line 124. -/
def eqRepeat (n : Nat) : String :=
  String.mk (List.replicate n '=')

/-- The two output lines pushed per record inside `print_category_results`
(`src/main.rs` lines 126-127). -/
def category_block (color : String) (r : PackageRecord) : String :=
  BOLD ++ color ++ r.1 ++ RESET ++ "\n" ++ "  " ++ r.2 ++ "\n\n"

/-- Models `print_category_results` (`src/main.rs` lines 121-130): nothing
for an empty list, otherwise a bold header line, a rule line of `=` signs,
and one block per record. -/
def print_category_results (name : String) (results : List PackageRecord)
    (color : String) : String :=
  if results.isEmpty then ""
  else
    BOLD ++ name ++ " Results:" ++ RESET ++ "\n" ++
    eqRepeat (name.length + 9) ++ "\n" ++
    String.join (results.map (category_block color))

/-- The full text buffer built by `print_results_with_pager`
(`src/main.rs` lines 104-134) before the tilde replacement. -/
def render_buffer (t : ResultTriple) : String :=
  summary_line t.1.length t.2.1.length t.2.2.length ++
  print_category_results "Pacman" t.1 BLUE ++
  print_category_results "AUR" t.2.1 RED ++
  print_category_results "Flatpak" t.2.2 GREEN

/-- The text written to the pager (`src/main.rs` lines 136-137):
the buffer with every `~` replaced by a space. -/
def display_output (t : ResultTriple) : String :=
  replaceTilde (render_buffer t)

end Pd

namespace Yay

/-- The description rule of `yay/src/main.rs` (lines 88-90 and 114-118),
textually identical to the one in `src/main.rs`. -/
def descOf (d : String) : String :=
  if rustTrim d = "" then "No description." else rustTrim d

/-- The pair-parsing body of `execute_search_command` in `yay/src/main.rs`
(lines 109-128), textually identical to the one in `src/main.rs`. -/
def parse_pair (header descLine : String) : Option PackageRecord :=
  match splitn2 header '/' with
  | [_, rest] =>
    match splitn2 rest ' ' with
    | [name, _] => some (name, descOf descLine)
    | _ => none
  | _ => none

/-- The chunk closure of `execute_search_command` in `yay/src/main.rs`
(lines 108-129). -/
def parse_chunk : List String → Option PackageRecord
  | [h, d] => parse_pair h d
  | _ => none

/-- The pure parsing stage of `execute_search_command` in `yay/src/main.rs`
(lines 104-130). -/
def execute_search_parse (stdout : String) : List PackageRecord :=
  (chunks2 (rustLines stdout)).filterMap parse_chunk

/-- The per-line closure of `search_flatpak` in `yay/src/main.rs`
(lines 85-94), textually identical to the one in `src/main.rs`. -/
def flatpak_line (term line : String) : Option PackageRecord :=
  match splitn3 line '\t' with
  | [a, _] =>
    if containsStr (toLowercaseStr a) (toLowercaseStr term) then
      some (a, "No description.")
    else none
  | [a, _, c] =>
    if containsStr (toLowercaseStr a) (toLowercaseStr term) then
      some (a, descOf c)
    else none
  | _ => none

/-- The pure parsing stage of `search_flatpak` in `yay/src/main.rs`
(lines 81-96). -/
def search_flatpak_parse (term stdout : String) : List PackageRecord :=
  (((rustLines stdout).drop 1).filter (fun l => !(l == ""))).filterMap
    (flatpak_line term)

/-- Models the async `search_packages` of `yay/src/main.rs` (lines 30-66).
Each argument is the `join_all` outcome of one spawned task: the outer
`Except` is the join result (`Except.error ()` when the task panicked, as
the launch-failure panic of `execute_search_command` inside a task does),
the inner `Except` is the `std::io::Result` of the adapter, and the payload
is the captured stdout, to which the adapter applies its parser.  A slot is
filled only through the `if let Ok(Ok(..))` arms (lines 55-63); every other
outcome leaves the slot as the empty list built at line 53. -/
def search_packages (term : String)
    (o1 o2 o3 : Except Unit (Except Unit String)) : ResultTriple :=
  ((match o1 with
    | Except.ok (Except.ok s) => execute_search_parse s
    | _ => []),
   (match o2 with
    | Except.ok (Except.ok s) => execute_search_parse s
    | _ => []),
   (match o3 with
    | Except.ok (Except.ok s) => search_flatpak_parse term s
    | _ => []))

end Yay

/-- Modelled from the spec: the SystemRepo/UserRepo parsing rule as the spec
words it, which first selects the non-empty lines of the output and only
then groups consecutive lines into (header, description) pairs.  Written
for comparison with `Pd.execute_search_parse`, which pairs all lines. -/
def specNonEmptyPairParse (stdout : String) : List PackageRecord :=
  (chunks2 ((rustLines stdout).filter (fun l => !(l == "")))).filterMap
    Pd.parse_chunk

lemma splitn2_of_mem {s : String} {c : Char} (h : c ∈ s.data) :
    splitn2 s c =
      [String.mk (s.data.takeWhile (fun a => a != c)),
       String.mk ((s.data.dropWhile (fun a => a != c)).drop 1)] := by
  simp [splitn2, h]

lemma splitn2_of_not_mem {s : String} {c : Char} (h : c ∉ s.data) :
    splitn2 s c = [s] := by
  simp [splitn2, h]

lemma data_mk (l : List Char) : (String.mk l).data = l := rfl

lemma parse_pair_some (h d : String) (hm : '/' ∈ h.data)
    (hs : ' ' ∈ remainderAfterSlash h) :
    Pd.parse_pair h d =
      some (String.mk ((remainderAfterSlash h).takeWhile (fun a => a != ' ')),
            Pd.descOf d) := by
  have h1 : splitn2 h '/' =
      [String.mk (h.data.takeWhile (fun a => a != '/')),
       String.mk (remainderAfterSlash h)] := splitn2_of_mem hm
  have h2 : splitn2 (String.mk (remainderAfterSlash h)) ' ' =
      [String.mk ((remainderAfterSlash h).takeWhile (fun a => a != ' ')),
       String.mk (((remainderAfterSlash h).dropWhile (fun a => a != ' ')).drop 1)] :=
    splitn2_of_mem hs
  simp [Pd.parse_pair, h1, h2]

lemma parse_pair_none (h d : String)
    (hn : ¬('/' ∈ h.data ∧ ' ' ∈ remainderAfterSlash h)) :
    Pd.parse_pair h d = none := by
  by_cases hm : '/' ∈ h.data
  · have hs : ' ' ∉ remainderAfterSlash h := fun hs => hn ⟨hm, hs⟩
    have h1 : splitn2 h '/' =
        [String.mk (h.data.takeWhile (fun a => a != '/')),
         String.mk (remainderAfterSlash h)] := splitn2_of_mem hm
    have h2 : splitn2 (String.mk (remainderAfterSlash h)) ' ' =
        [String.mk (remainderAfterSlash h)] := splitn2_of_not_mem hs
    simp [Pd.parse_pair, h1, h2]
  · have h1 : splitn2 h '/' = [h] := splitn2_of_not_mem hm
    simp [Pd.parse_pair, h1]

lemma trim_chain_eq_nil_iff (l : List Char) :
    ((l.dropWhile rustIsWhitespace).reverse.dropWhile rustIsWhitespace).reverse = []
      ↔ ∀ x ∈ l, rustIsWhitespace x := by
  rw [List.reverse_eq_nil_iff, List.dropWhile_eq_nil_iff]
  constructor
  · intro H x hx
    have hsplit := List.takeWhile_append_dropWhile (p := rustIsWhitespace) (l := l)
    rw [← hsplit] at hx
    rcases List.mem_append.mp hx with h1 | h2
    · exact List.mem_takeWhile_imp h1
    · exact H x (List.mem_reverse.mpr h2)
  · intro H x hx
    exact H x (List.dropWhile_subset _ (List.mem_reverse.mp hx))

lemma empty_data : ("" : String).data = [] := rfl

lemma rustTrim_eq_empty_iff (s : String) :
    rustTrim s = "" ↔ ∀ x ∈ s.data, rustIsWhitespace x := by
  rw [String.ext_iff, rustTrim, data_mk, empty_data, trim_chain_eq_nil_iff]

lemma descOf_ne_empty (d : String) : Pd.descOf d ≠ "" := by
  unfold Pd.descOf
  split
  · decide
  · assumption

lemma descOf_eq_fallback_iff (d : String) :
    Pd.descOf d = "No description." ↔
      (rustTrim d = "" ∨ rustTrim d = "No description.") := by
  unfold Pd.descOf
  split
  · simp [*]
  · simp only [iff_def]
    constructor
    · intro h; exact Or.inr h
    · rintro (h | h)
      · exact absurd h (by assumption)
      · exact h

lemma data_eq_nil_iff (s : String) : s.data = [] ↔ s = "" := by
  rw [String.ext_iff, empty_data]

lemma leadsWith_nil {sub : List Char} (h : sub ≠ []) :
    leadsWith sub [] = false := by
  cases sub with
  | nil => exact absurd rfl h
  | cons a as => rfl

lemma containsStr_hay_ne_empty {hay sub : String}
    (hc : containsStr hay sub = true) (hs : sub ≠ "") : hay ≠ "" := by
  intro hh
  subst hh
  have hd : sub.data ≠ [] := fun h => hs ((data_eq_nil_iff sub).mp h)
  rw [containsStr, empty_data] at hc
  rw [show occursIn sub.data [] = leadsWith sub.data [] from rfl,
      leadsWith_nil hd] at hc
  exact Bool.false_ne_true hc

lemma toLowercaseStr_eq_empty_iff (s : String) :
    toLowercaseStr s = "" ↔ s = "" := by
  rw [String.ext_iff, toLowercaseStr, data_mk, empty_data, List.map_eq_nil_iff,
    data_eq_nil_iff]

lemma splitn3_shape (s : String) (c : Char) :
    (splitn3 s c = [s] ∧ c ∉ s.data) ∨
    (∃ a b, splitn3 s c = [a, b]) ∨
    (∃ a b r, splitn3 s c = [a, b, r]) := by
  by_cases hm : c ∈ s.data
  · have h1 := splitn2_of_mem hm
    by_cases hm2 : c ∈ ((s.data.dropWhile (fun a => a != c)).drop 1)
    · have h2 := splitn2_of_mem
        (show c ∈ (String.mk ((s.data.dropWhile (fun a => a != c)).drop 1)).data from hm2)
      refine Or.inr (Or.inr
        ⟨String.mk (s.data.takeWhile (fun a => a != c)),
         String.mk (((s.data.dropWhile (fun a => a != c)).drop 1).takeWhile (fun a => a != c)),
         String.mk ((((s.data.dropWhile (fun a => a != c)).drop 1).dropWhile (fun a => a != c)).drop 1),
         ?_⟩)
      simp only [splitn3, h1, h2, data_mk]
    · have h2 := splitn2_of_not_mem
        (show c ∉ (String.mk ((s.data.dropWhile (fun a => a != c)).drop 1)).data from hm2)
      refine Or.inr (Or.inl
        ⟨String.mk (s.data.takeWhile (fun a => a != c)),
         String.mk ((s.data.dropWhile (fun a => a != c)).drop 1), ?_⟩)
      simp only [splitn3, h1, h2]
  · refine Or.inl ⟨?_, hm⟩
    simp only [splitn3, splitn2_of_not_mem hm]

lemma mk_takeWhile_eq_empty_iff (l : List Char) (hne : l ≠ []) :
    String.mk (l.takeWhile (fun a => a != ' ')) = "" ↔ l.head? = some ' ' := by
  cases l with
  | nil => exact absurd rfl hne
  | cons c t =>
    rw [String.ext_iff, data_mk, empty_data, List.takeWhile_cons]
    by_cases hc : c = ' '
    · simp [hc]
    · simp [hc]

lemma count_tilde_map (l : List Char) :
    (l.map tildeToSpace).count '~' = 0 ∧
    (l.map tildeToSpace).count ' ' = l.count ' ' + l.count '~' ∧
    (l.map tildeToSpace).length = l.length := by
  induction l with
  | nil => simp
  | cons c t ih =>
    obtain ⟨ih1, ih2, ih3⟩ := ih
    by_cases hc : c = '~'
    · subst hc
      simp [List.count_cons, tildeToSpace, ih1, ih2, ih3]
      omega
    · by_cases hsp : c = ' '
      · subst hsp
        simp [List.count_cons, tildeToSpace, ih1, ih2, ih3]
        omega
      · simp [List.count_cons, tildeToSpace, hc, hsp, ih1, ih2, ih3]

/-- C9: the summary-count formatter renders `"1 package"` for count 1 and
the decimal numeral followed by `" packages"` for every other count,
including 0. -/
theorem format_count_rule (n : Nat) :
    Pd.format_package_count 1 = "1 package" ∧
    (n ≠ 1 → Pd.format_package_count n = toString n ++ " packages") := by
  refine ⟨rfl, fun h => ?_⟩
  simp [Pd.format_package_count, h]

theorem format_count_rule_witness :
    Pd.format_package_count 0 = "0 packages" ∧
    Pd.format_package_count 1 = "1 package" :=
  ⟨((format_count_rule 0).2 (by decide)).trans (by decide),
   (format_count_rule 0).1⟩

/-- C10: the pure parsers of the two source variants are extensionally
equal, on every captured stdout and every search term. -/
theorem variant_equivalence (stdout term : String) :
    Pd.execute_search_parse stdout = Yay.execute_search_parse stdout ∧
    Pd.search_flatpak_parse term stdout = Yay.search_flatpak_parse term stdout :=
  ⟨rfl, rfl⟩

lemma replaceTilde_data (s : String) :
    (replaceTilde s).data = s.data.map tildeToSpace := rfl

lemma display_output_eq (t : ResultTriple) :
    Pd.display_output t = replaceTilde (Pd.render_buffer t) := rfl

lemma string_length_data (s : String) : s.length = s.data.length := rfl

/-- C8: the post-processing step replaces every `~` of the buffer with a
single space: the text written to the pager has no `~`, the length is
preserved, and the space count grows by exactly the tilde count. -/
theorem tilde_scrub (t : ResultTriple) (s : String) :
    (Pd.display_output t).data.count '~' = 0 ∧
    (replaceTilde s).data.count '~' = 0 ∧
    (replaceTilde s).length = s.length ∧
    (replaceTilde s).data.count ' ' = s.data.count ' ' + s.data.count '~' := by
  rw [display_output_eq, replaceTilde_data, replaceTilde_data,
    string_length_data (replaceTilde s), replaceTilde_data, string_length_data s]
  exact ⟨(count_tilde_map (Pd.render_buffer t).data).1,
    (count_tilde_map s.data).1,
    (count_tilde_map s.data).2.2,
    (count_tilde_map s.data).2.1⟩

/-- C5: a pair whose header splits on a first `/` and whose remainder
splits on a first space yields the record whose name is the remainder text
before the first space, with the trimmed description line or
`"No description."` for a whitespace-only line; every other pair is
silently skipped. -/
theorem pacman_pair_rule (h d : String) :
    (('/' ∈ h.data ∧ ' ' ∈ remainderAfterSlash h) →
      Pd.parse_pair h d =
        some (String.mk ((remainderAfterSlash h).takeWhile (fun a => a != ' ')),
              if d.data.all rustIsWhitespace then "No description."
              else rustTrim d)) ∧
    (¬('/' ∈ h.data ∧ ' ' ∈ remainderAfterSlash h) →
      Pd.parse_pair h d = none) := by
  constructor
  · rintro ⟨hm, hs⟩
    rw [parse_pair_some h d hm hs]
    by_cases hall : d.data.all rustIsWhitespace = true
    · have htrim : rustTrim d = "" :=
        (rustTrim_eq_empty_iff d).mpr (List.all_eq_true.mp hall)
      simp [Pd.descOf, htrim, hall]
    · have htrim : rustTrim d ≠ "" := fun hh =>
        hall (List.all_eq_true.mpr ((rustTrim_eq_empty_iff d).mp hh))
      simp [Pd.descOf, htrim, hall]
  · exact parse_pair_none h d

theorem pacman_pair_rule_witness :
    Pd.parse_pair "core/pkg 1.0-1" " A tool. " = some ("pkg", "A tool.") ∧
    Pd.parse_pair "badheader" "x" = none :=
  ⟨((pacman_pair_rule "core/pkg 1.0-1" " A tool. ").1 (by decide)).trans
      (by decide),
   (pacman_pair_rule "badheader" "x").2 (by decide)⟩

lemma bold_data : Pd.BOLD.data = ['\x1B', '[', '1', 'm'] := rfl

/-- C4 counterexample: on the all-empty triple the buffer opens with the
literal labels `Pacman:`, `AUR:`, `Flatpak:`, and does not begin with the
claimed `<b>System:</b>` text. -/
theorem summary_labels_cex :
    Pd.render_buffer ([], [], []) =
      "\x1B[1mPacman:\x1B[0m 0 packages | \x1B[1mAUR:\x1B[0m 0 packages | \x1B[1mFlatpak:\x1B[0m 0 packages\n\n" ∧
    leadsWith "\x1B[1mSystem:".data (Pd.render_buffer ([], [], [])).data = false := by
  decide

/-- C4 amended: every rendered buffer starts with the summary line of the
claimed shape, with the literal labels `Pacman:`, `AUR:` and `Flatpak:`
for the system, user and sandboxed categories. -/
theorem summary_line_shape (t : ResultTriple) :
    ∃ rest, Pd.render_buffer t =
      Pd.BOLD ++ "Pacman:" ++ Pd.RESET ++ " " ++
      Pd.format_package_count t.1.length ++ " | " ++
      Pd.BOLD ++ "AUR:" ++ Pd.RESET ++ " " ++
      Pd.format_package_count t.2.1.length ++ " | " ++
      Pd.BOLD ++ "Flatpak:" ++ Pd.RESET ++ " " ++
      Pd.format_package_count t.2.2.length ++ "\n\n" ++ rest := by
  refine ⟨Pd.print_category_results "Pacman" t.1 Pd.BLUE ++
          Pd.print_category_results "AUR" t.2.1 Pd.RED ++
          Pd.print_category_results "Flatpak" t.2.2 Pd.GREEN, ?_⟩
  simp only [Pd.render_buffer, Pd.summary_line, String.append_assoc]

/-- C7: a category section is rendered exactly when its list is non-empty;
a rendered section opens with the bolded header line and a rule line of
`=` repeated `name.length + 9` times; and the buffer is the summary line
followed by the three sections in the fixed pacman, aur, flatpak order. -/
theorem render_sections (name : String) (rs : List PackageRecord)
    (color : String) (t : ResultTriple) :
    (Pd.print_category_results name rs color = "" ↔ rs = []) ∧
    (rs ≠ [] → ∃ tail, Pd.print_category_results name rs color =
        Pd.BOLD ++ name ++ " Results:" ++ Pd.RESET ++ "\n" ++
        String.mk (List.replicate (name.length + 9) '=') ++ "\n" ++ tail) ∧
    Pd.render_buffer t =
      Pd.summary_line t.1.length t.2.1.length t.2.2.length ++
      Pd.print_category_results "Pacman" t.1 Pd.BLUE ++
      Pd.print_category_results "AUR" t.2.1 Pd.RED ++
      Pd.print_category_results "Flatpak" t.2.2 Pd.GREEN := by
  refine ⟨?_, ?_, rfl⟩
  · rcases rs with _ | ⟨r, rest⟩
    · simp [Pd.print_category_results]
    · apply iff_of_false
      · intro hcontra
        have hd := String.ext_iff.mp hcontra
        rw [empty_data] at hd
        simp [Pd.print_category_results, String.data_append,
          List.append_eq_nil, bold_data] at hd
      · simp
  · intro hne
    rcases rs with _ | ⟨r, rest⟩
    · exact absurd rfl hne
    · refine ⟨String.join ((r :: rest).map (Pd.category_block color)), ?_⟩
      simp only [Pd.print_category_results, List.isEmpty_cons,
        Bool.false_eq_true, if_false, Pd.eqRepeat, String.append_assoc]

theorem render_sections_witness :
    ∃ tail, Pd.print_category_results "Pacman" [("foo", "A foo.")] Pd.BLUE =
      Pd.BOLD ++ "Pacman" ++ " Results:" ++ Pd.RESET ++ "\n" ++
      String.mk (List.replicate ("Pacman".length + 9) '=') ++ "\n" ++ tail :=
  (render_sections "Pacman" [("foo", "A foo.")] Pd.BLUE ([], [], [])).2.1
    (by decide)

/-- C3 counterexample: on `"a/b c\n\n"` the code pairs the header with the
following empty line (which becomes a `"No description."` description),
while the claimed select-non-empty-lines-first rule drops the lone header
and produces nothing. -/
theorem pacman_pairing_cex :
    Pd.execute_search_parse "a/b c\n\n" = [("b", "No description.")] ∧
    specNonEmptyPairParse "a/b c\n\n" = [] := by
  decide

/-- C3 amended: the parser pairs ALL stdout lines, empty ones included, so
an empty line occupies a header or description slot and shifts the later
pairing; the claimed behaviour holds exactly on outputs without empty
lines, where the code agrees with the select-then-pair rule. -/
theorem pacman_pairing_no_empty_agreement (s : String)
    (hs : ∀ l ∈ rustLines s, l ≠ "") :
    Pd.execute_search_parse s = specNonEmptyPairParse s := by
  have hfilter : (rustLines s).filter (fun l => !(l == "")) = rustLines s :=
    List.filter_eq_self.mpr (by
      intro a ha
      simpa using hs a ha)
  rw [Pd.execute_search_parse, specNonEmptyPairParse, hfilter]

theorem pacman_pairing_no_empty_agreement_witness :
    Pd.execute_search_parse "core/pkg 1.0-1\n    A tool." =
      specNonEmptyPairParse "core/pkg 1.0-1\n    A tool." :=
  pacman_pairing_no_empty_agreement "core/pkg 1.0-1\n    A tool." (by decide)

/-- C1 counterexample: in the sequential variant a pacman launch failure
panics and aborts the run (no triple at all), while the same outcomes in
the concurrent variant still yield a triple with the failed slot empty. -/
theorem aggregator_src_abort_cex :
    Pd.search_packages "tool" (Except.error ()) (Except.ok "a/b c\nA tool.")
      (Except.ok "") = none ∧
    Yay.search_packages "tool" (Except.error ())
      (Except.ok (Except.ok "a/b c\nA tool.")) (Except.ok (Except.ok "")) =
      ([], [("b", "A tool.")], []) := by
  decide

/-- C1 amended: in the concurrent variant, a task whose outcome is not
`Ok(Ok(..))` (launch or I/O error, or task panic) contributes the empty
list to its slot while the slot of each successful task holds its parsed
records, and the aggregation always returns a triple; in the sequential
variant an adapter failure panics and aborts the program instead. -/
theorem aggregator_yay_isolation (term : String)
    (o1 o2 o3 : Except Unit (Except Unit String)) :
    ((∀ s, o1 ≠ Except.ok (Except.ok s)) →
      (Yay.search_packages term o1 o2 o3).1 = []) ∧
    (∀ s, o1 = Except.ok (Except.ok s) →
      (Yay.search_packages term o1 o2 o3).1 = Yay.execute_search_parse s) ∧
    ((∀ s, o2 ≠ Except.ok (Except.ok s)) →
      (Yay.search_packages term o1 o2 o3).2.1 = []) ∧
    (∀ s, o2 = Except.ok (Except.ok s) →
      (Yay.search_packages term o1 o2 o3).2.1 = Yay.execute_search_parse s) ∧
    ((∀ s, o3 ≠ Except.ok (Except.ok s)) →
      (Yay.search_packages term o1 o2 o3).2.2 = []) ∧
    (∀ s, o3 = Except.ok (Except.ok s) →
      (Yay.search_packages term o1 o2 o3).2.2 =
        Yay.search_flatpak_parse term s) := by
  refine ⟨?_, ?_, ?_, ?_, ?_, ?_⟩
  · intro hf
    cases o1 with
    | error e => rfl
    | ok i =>
      cases i with
      | error e => rfl
      | ok s => exact absurd rfl (hf s)
  · rintro s rfl
    rfl
  · intro hf
    cases o2 with
    | error e => rfl
    | ok i =>
      cases i with
      | error e => rfl
      | ok s => exact absurd rfl (hf s)
  · rintro s rfl
    rfl
  · intro hf
    cases o3 with
    | error e => rfl
    | ok i =>
      cases i with
      | error e => rfl
      | ok s => exact absurd rfl (hf s)
  · rintro s rfl
    rfl

theorem aggregator_yay_isolation_witness :
    (Yay.search_packages "tool" (Except.error ())
      (Except.ok (Except.ok "a/b c\nA tool."))
      (Except.ok (Except.error ()))).1 = [] ∧
    (Yay.search_packages "tool" (Except.error ())
      (Except.ok (Except.ok "a/b c\nA tool."))
      (Except.ok (Except.error ()))).2.1 = [("b", "A tool.")] ∧
    (Yay.search_packages "tool" (Except.error ())
      (Except.ok (Except.ok "a/b c\nA tool."))
      (Except.ok (Except.error ()))).2.2 = [] := by
  have h := aggregator_yay_isolation "tool" (Except.error ())
    (Except.ok (Except.ok "a/b c\nA tool.")) (Except.ok (Except.error ()))
  refine ⟨h.1 (fun s hs => Except.noConfusion hs),
    (h.2.2.2.1 "a/b c\nA tool." rfl).trans (by decide),
    h.2.2.2.2.1 (fun s hs => Except.noConfusion (Except.ok.inj hs))⟩

/-- C2 counterexample: on the header `"core/ 1.0"` the remainder after `/`
begins with a space, so the name of the emitted record is empty; and with the
description line `"No description."` the description equals the fallback
literal although the line does contain non-whitespace characters. -/
theorem record_invariants_cex :
    Pd.execute_search_parse "core/ 1.0\nNo description." =
      [("", "No description.")] ∧
    rustTrim "No description." = "No description." := by
  decide

/-- C2 amended: the description of every emitted record is non-empty and
equals the fallback exactly when the source line trims to nothing or to the
fallback literal itself; the name of a SystemRepo/UserRepo record is empty
exactly when the remainder of the header after the first `/` begins with a
space, and a Sandboxed record under a non-empty search term always has a
non-empty name. -/
theorem record_invariants_amended :
    (∀ h d n desc, Pd.parse_pair h d = some (n, desc) →
       desc ≠ "" ∧
       ((∀ x ∈ d.data, rustIsWhitespace x) → desc = "No description.") ∧
       (desc = "No description." ↔
         (rustTrim d = "" ∨ rustTrim d = "No description.")) ∧
       (n = "" ↔ (remainderAfterSlash h).head? = some ' ')) ∧
    (∀ term line n desc, term ≠ "" →
       Pd.flatpak_line term line = some (n, desc) →
       n ≠ "" ∧ desc ≠ "") := by
  constructor
  · intro h d n desc hp
    by_cases hc : '/' ∈ h.data ∧ ' ' ∈ remainderAfterSlash h
    · obtain ⟨hm, hsp⟩ := hc
      rw [parse_pair_some h d hm hsp] at hp
      obtain ⟨hn, hdesc⟩ := Prod.mk.injEq .. ▸ Option.some.inj hp
      refine ⟨hdesc ▸ descOf_ne_empty d, ?_, ?_, ?_⟩
      · intro hall
        rw [← hdesc, Pd.descOf, if_pos ((rustTrim_eq_empty_iff d).mpr hall)]
      · rw [← hdesc]
        exact descOf_eq_fallback_iff d
      · rw [← hn]
        exact mk_takeWhile_eq_empty_iff (remainderAfterSlash h)
          (List.ne_nil_of_mem hsp)
    · rw [parse_pair_none h d hc] at hp
      exact Option.noConfusion hp
  · intro term line n desc hterm hp
    have hsub : toLowercaseStr term ≠ "" := fun hh =>
      hterm ((toLowercaseStr_eq_empty_iff term).mp hh)
    rcases splitn3_shape line '\t' with ⟨h1, _⟩ | ⟨a, b, h2⟩ | ⟨a, b, c, h3⟩
    · rw [Pd.flatpak_line, h1] at hp
      exact Option.noConfusion hp
    · rw [Pd.flatpak_line, h2] at hp
      have hp2 : (if containsStr (toLowercaseStr a) (toLowercaseStr term) = true
          then some (a, ("No description." : String)) else none) =
          some (n, desc) := hp
      by_cases hcond : containsStr (toLowercaseStr a) (toLowercaseStr term) = true
      · rw [if_pos hcond] at hp2
        obtain ⟨hn, hdesc⟩ := Prod.mk.injEq .. ▸ Option.some.inj hp2
        have hhay : toLowercaseStr a ≠ "" := containsStr_hay_ne_empty hcond hsub
        refine ⟨fun hne => hhay ?_, hdesc ▸ (by decide)⟩
        rw [← hn] at hne
        rw [hne]
        rfl
      · rw [if_neg hcond] at hp2
        exact Option.noConfusion hp2
    · rw [Pd.flatpak_line, h3] at hp
      have hp2 : (if containsStr (toLowercaseStr a) (toLowercaseStr term) = true
          then some (a, Pd.descOf c) else none) = some (n, desc) := hp
      by_cases hcond : containsStr (toLowercaseStr a) (toLowercaseStr term) = true
      · rw [if_pos hcond] at hp2
        obtain ⟨hn, hdesc⟩ := Prod.mk.injEq .. ▸ Option.some.inj hp2
        have hhay : toLowercaseStr a ≠ "" := containsStr_hay_ne_empty hcond hsub
        refine ⟨fun hne => hhay ?_, hdesc ▸ descOf_ne_empty c⟩
        rw [← hn] at hne
        rw [hne]
        rfl
      · rw [if_neg hcond] at hp2
        exact Option.noConfusion hp2

theorem record_invariants_amended_witness :
    (("A tool." : String) ≠ "" ∧
     (("pkg" : String) = "" ↔
       (remainderAfterSlash "core/pkg 1.0-1").head? = some ' ')) ∧
    (("org.x.Foo" : String) ≠ "" ∧ ("Foo app" : String) ≠ "") := by
  have h1 := record_invariants_amended.1 "core/pkg 1.0-1" " A tool. "
    "pkg" "A tool." (by decide)
  have h2 := record_invariants_amended.2 "foo" "org.x.Foo\tstable\tFoo app"
    "org.x.Foo" "Foo app" (by decide) (by decide)
  exact ⟨⟨h1.1, h1.2.2.2⟩, h2⟩

/-- C6: the Sandboxed adapter drops the first stdout line and keeps only
non-empty lines; a line emits a record exactly when its tab-split (at most
three fields) has at least two fields and the lowercased first field
contains the lowercased term; the name is the first field and the
description follows the shared trimmed/fallback rule, with a missing third
field treated as no description. -/
theorem flatpak_adapter_rule (term stdout line : String) (r : PackageRecord) :
    (r ∈ Pd.search_flatpak_parse term stdout →
       ∃ l, l ∈ (rustLines stdout).drop 1 ∧ l ≠ "" ∧
         Pd.flatpak_line term l = some r) ∧
    ((Pd.flatpak_line term line).isSome = true ↔
       (2 ≤ (splitn3 line '\t').length ∧
        containsStr (toLowercaseStr ((splitn3 line '\t').headD ""))
          (toLowercaseStr term) = true)) ∧
    (Pd.flatpak_line term line = some r →
       r.1 = (splitn3 line '\t').headD "" ∧
       r.2 = (match (splitn3 line '\t')[2]? with
              | none => "No description."
              | some f => Pd.descOf f)) := by
  refine ⟨?_, ?_, ?_⟩
  · intro hr
    obtain ⟨l, hl, hfl⟩ := List.mem_filterMap.mp hr
    obtain ⟨hl2, hpl⟩ := List.mem_filter.mp hl
    exact ⟨l, hl2, by simpa using hpl, hfl⟩
  · rcases splitn3_shape line '\t' with ⟨h1, _⟩ | ⟨a, b, h2⟩ | ⟨a, b, c, h3⟩
    · rw [Pd.flatpak_line, h1]
      simp
    · rw [Pd.flatpak_line, h2]
      have hred : (match [a, b] with
          | [x, _] =>
            if containsStr (toLowercaseStr x) (toLowercaseStr term) = true then
              some (x, ("No description." : String))
            else none
          | [x, _, c] =>
            if containsStr (toLowercaseStr x) (toLowercaseStr term) = true then
              some (x, Pd.descOf c)
            else none
          | _ => none) =
          (if containsStr (toLowercaseStr a) (toLowercaseStr term) = true then
            some (a, ("No description." : String)) else none) := rfl
      rw [hred]
      by_cases hcond : containsStr (toLowercaseStr a) (toLowercaseStr term) = true
      · simp [hcond]
      · simp [hcond]
    · rw [Pd.flatpak_line, h3]
      have hred : (match [a, b, c] with
          | [x, _] =>
            if containsStr (toLowercaseStr x) (toLowercaseStr term) = true then
              some (x, ("No description." : String))
            else none
          | [x, _, y] =>
            if containsStr (toLowercaseStr x) (toLowercaseStr term) = true then
              some (x, Pd.descOf y)
            else none
          | _ => none) =
          (if containsStr (toLowercaseStr a) (toLowercaseStr term) = true then
            some (a, Pd.descOf c) else none) := rfl
      rw [hred]
      by_cases hcond : containsStr (toLowercaseStr a) (toLowercaseStr term) = true
      · simp [hcond]
      · simp [hcond]
  · intro hp
    rcases splitn3_shape line '\t' with ⟨h1, _⟩ | ⟨a, b, h2⟩ | ⟨a, b, c, h3⟩
    · rw [Pd.flatpak_line, h1] at hp
      exact Option.noConfusion hp
    · rw [Pd.flatpak_line, h2] at hp
      have hp2 : (if containsStr (toLowercaseStr a) (toLowercaseStr term) = true
          then some (a, ("No description." : String)) else none) =
          some r := hp
      by_cases hcond : containsStr (toLowercaseStr a) (toLowercaseStr term) = true
      · rw [if_pos hcond] at hp2
        rw [h2, ← Option.some.inj hp2]
        exact ⟨rfl, rfl⟩
      · rw [if_neg hcond] at hp2
        exact Option.noConfusion hp2
    · rw [Pd.flatpak_line, h3] at hp
      have hp2 : (if containsStr (toLowercaseStr a) (toLowercaseStr term) = true
          then some (a, Pd.descOf c) else none) = some r := hp
      by_cases hcond : containsStr (toLowercaseStr a) (toLowercaseStr term) = true
      · rw [if_pos hcond] at hp2
        rw [h3, ← Option.some.inj hp2]
        exact ⟨rfl, rfl⟩
      · rw [if_neg hcond] at hp2
        exact Option.noConfusion hp2

theorem flatpak_adapter_rule_witness :
    ∃ l, l ∈ (rustLines "Name\tBranch\tDesc\norg.x.Foo\tstable\tFoo app").drop 1 ∧
      l ≠ "" ∧
      Pd.flatpak_line "foo" l = some ("org.x.Foo", "Foo app") :=
  (flatpak_adapter_rule "foo" "Name\tBranch\tDesc\norg.x.Foo\tstable\tFoo app"
      "" ("org.x.Foo", "Foo app")).1 (by decide)
